import Mathlib

/-!
A verification development for the ArbFinder acquisition-and-matching core
(`backend/arb_finder.py`, `backend/watch.py`).

Python floats are idealized as exact rationals (`ℚ`); all quantities the
verified claims mention are exact decimals, so no rounding behaviour of
binary floats is load-bearing.  Fallible code paths (the `ZeroDivisionError`
reachable in `match_comps_to_live`, the `TypeError` reachable in
`WatchMode._find_new_deals`) are embedded with `Option`, where `none` models
the Python exception escaping the function.
-/

namespace ArbFinder

/-- The `Listing` dataclass (arb_finder.py, lines 44-53).  `meta` is kept as a
key/value list; `json.dumps` is injective on it, so persisting the list itself
is a faithful image of persisting `meta_json`. -/
structure Listing where
  source : String
  url : String
  title : String
  price : ℚ
  currency : String := "USD"
  condition : String := "unknown"
  timestamp : ℚ := 0
  meta : List (String × String) := []
deriving DecidableEq

/-- The `Comp` dataclass (arb_finder.py, lines 56-61). -/
structure Comp where
  key_title : String
  avg_price : ℚ
  median_price : ℚ
  count : ℕ
deriving DecidableEq

/-- Split a character list into maximal runs of non-whitespace characters;
`cur` accumulates the current run in reverse.  This is `str.split()` (and
equally the non-empty chunks between `\s+` separators), written structurally
over the character list so that it evaluates by kernel reduction. -/
def wsChunks (cur : List Char) : List Char → List (List Char)
  | [] => if cur = [] then [] else [cur.reverse]
  | c :: cs =>
    if c.isWhitespace then
      (if cur = [] then wsChunks [] cs else cur.reverse :: wsChunks [] cs)
    else wsChunks (c :: cur) cs

/-- Join words with single spaces. -/
def joinWords : List (List Char) → List Char
  | [] => []
  | [w] => w
  | w :: ws => w ++ ' ' :: joinWords ws

/-- `re.sub(r"\s+", " ", title).strip().lower()` (arb_finder.py, lines 432 and
458): collapse whitespace runs to single spaces, strip, lower-case (ASCII
model of `str.lower`). -/
def normTitle (s : String) : String :=
  String.mk ((joinWords (wsChunks [] s.data)).map Char.toLower)

/-- The whitespace-separated tokens of a string (`str.split()`), deduplicated
into a set-like list. -/
def tokens (s : String) : List String :=
  ((wsChunks [] s.data).map String.mk).dedup

/-- The token set of a string, as a finite set (used in statements). -/
def tokenFinset (s : String) : Finset String :=
  ((wsChunks [] s.data).map String.mk).toFinset

/-- Modelled from the spec: `rapidfuzz.fuzz.token_set_ratio`, called at
arb_finder.py lines 435 and 461, is an external library routine whose source is
not part of this repository.  The spec (section 4.3) describes it as "a
token-set similarity score (order- and duplicate-token-insensitive ratio,
0-100)".  We model it as the Sorensen-Dice ratio of the two token sets,
which depends only on the token sets (order- and duplicate-insensitive),
ranges over 0-100, and is 100 exactly on equal token sets. -/
def tokenSetSim (x y : String) : ℤ :=
  let a := tokens x
  let b := tokens y
  if a.all (fun t => b.contains t) && b.all (fun t => a.contains t) then 100
  else ((200 * (a.filter (fun t => b.contains t)).length) / (a.length + b.length) : ℕ)

/-- Ordered association-list image of a `defaultdict(list)` keyed by exemplar
title and holding the listings folded into each cluster (arb_finder.py, line
429 and 441; the Python code appends `lst.price`, we append the whole listing
and project to the price in `compute_comps` below, so that cluster membership
is expressible). -/
abbrev Bins := List (String × List Listing)

/-- `bins[chosen].append(...)`: append to an existing key's list, or create the
key at the end (Python dicts preserve insertion order). -/
def appendBin : Bins → String → Listing → Bins
  | [], k, l => [(k, [l])]
  | (k0, v) :: rest, k, l =>
    if k0 = k then (k0, v ++ [l]) :: rest else (k0, v) :: appendBin rest k l

/-- One iteration of the greedy exemplar-clustering loop of `compute_comps`
(arb_finder.py, lines 431-441): normalize the title, pick the first exemplar
scoring at least the threshold, and note that Python's `if not chosen:` treats
both `None` and the empty-string exemplar as "no match", in which case the
normalized title becomes a new exemplar and the listing is binned under it. -/
def clusterStep (sim : String → String → ℤ) (t : ℤ) (st : List String × Bins)
    (l : Listing) : List String × Bins :=
  let nt := normTitle l.title
  match st.1.find? (fun k => decide (t ≤ sim nt k)) with
  | some k =>
    if k = "" then (st.1 ++ [nt], appendBin st.2 nt l)
    else (st.1, appendBin st.2 k l)
  | none => (st.1 ++ [nt], appendBin st.2 nt l)

/-- The exemplar list and cluster bins produced by the loop of `compute_comps`
(arb_finder.py, lines 429-441), parametric in the similarity score. -/
def clustersWith (sim : String → String → ℤ) (t : ℤ) (ls : List Listing) :
    List String × Bins :=
  ls.foldl (clusterStep sim t) ([], [])

/-- The cluster bins of `compute_comps` with the modelled similarity score. -/
def clusters (ls : List Listing) (t : ℤ) : Bins :=
  (clustersWith tokenSetSim t ls).2

/-- Members of the cluster keyed `k` (empty if no such cluster). -/
def binOf (ls : List Listing) (t : ℤ) (k : String) : List Listing :=
  (((clusters ls t).find? (fun kb => kb.1 == k)).map (fun kb => kb.2)).getD []

/-- The per-cluster statistics of `compute_comps` (arb_finder.py, lines
443-448): sort the prices, `avg = sum / n`, median is the middle element for
odd `n` and the mean of the two central elements for even `n`.  Sorting is
modelled with (stable) insertion sort; Python's `list.sort` is also stable. -/
def mkComp (k : String) (prices : List ℚ) : Comp :=
  let sorted := List.insertionSort (· ≤ ·) prices
  let n := sorted.length
  { key_title := k
    avg_price := prices.sum / (n : ℚ)
    median_price :=
      if n % 2 = 1 then sorted.getD (n / 2) 0
      else (sorted.getD (n / 2 - 1) 0 + sorted.getD (n / 2) 0) / 2
    count := n }

/-- `compute_comps` (arb_finder.py, lines 426-449), producing the ordered
key-to-Comp map. -/
def compute_comps (ls : List Listing) (t : ℤ) : List (String × Comp) :=
  if ls = [] then []
  else (clusters ls t).map (fun kb => (kb.1, mkComp kb.1 (kb.2.map Listing.price)))

/-- The claim's own wording of the median ("the middle value of the sorted
prices for an odd count and the mean of the two central sorted values for an
even count"), stated on an already-sorted list. -/
def medianSpec (sorted : List ℚ) : ℚ :=
  if sorted.length % 2 = 1 then sorted.getD (sorted.length / 2) 0
  else (sorted.getD (sorted.length / 2 - 1) 0 + sorted.getD (sorted.length / 2) 0) / 2

/-- The row dictionary built per live listing by `match_comps_to_live`
(arb_finder.py, lines 465-482).  `none` models a `None` value. -/
structure MatchRow where
  source : String
  title : String
  url : String
  price : ℚ
  currency : String
  best_match_key : Option String
  similarity : ℤ
  avg_price : Option ℚ
  median_price : Option ℚ
  comp_count : ℕ
  discount_vs_avg_pct : Option ℚ
  discount_vs_median_pct : Option ℚ
deriving DecidableEq

/-- Round-half-to-even to an integer, the rounding of Python's builtin
`round`. -/
def roundHalfEven (q : ℚ) : ℤ :=
  let f := ⌊q⌋
  if q - f < 1/2 then f
  else if 1/2 < q - f then f + 1
  else if f % 2 = 0 then f else f + 1

/-- `round(x, 2)`: round to two decimal places. -/
def round2 (q : ℚ) : ℚ := (roundHalfEven (100 * q) : ℚ) / 100

/-- The best-candidate scan of `match_comps_to_live` (arb_finder.py, lines
459-463): best score starts at the `-1` sentinel and is replaced only on a
strictly greater score, so ties keep the first-seen key. -/
def bestMatch (nt : String) (keys : List String) : Option String × ℤ :=
  keys.foldl
    (fun bb k => let s := tokenSetSim nt k; if bb.2 < s then (some k, s) else bb)
    (none, -1)

/-- `comps.get(key)` on the ordered key-to-Comp map. -/
def compGet (comps : List (String × Comp)) (k : String) : Option Comp :=
  ((comps.find? (fun kc => kc.1 == k)).map (fun kc => kc.2))

/-- `comps.get(best_key) if best_key and best_score >= sim_threshold else None`
(arb_finder.py, line 464).  Note the truthiness test: an empty-string
`best_key` is treated exactly like no candidate. -/
def attachedComp (comps : List (String × Comp)) (t : ℤ) (l : Listing) :
    Option Comp :=
  match bestMatch (normTitle l.title) (comps.map Prod.fst) with
  | (some k, s) => if k ≠ "" ∧ t ≤ s then compGet comps k else none
  | (none, _) => none

/-- One row of `match_comps_to_live` (arb_finder.py, lines 457-483).  The
result is `none` when the Python code raises `ZeroDivisionError`: the guard
`if comp and comp.avg_price:` only tests `avg_price`, so an attached comp with
non-zero `avg_price` but zero `median_price` makes the second discount line
divide by zero. -/
def matchRow (comps : List (String × Comp)) (t : ℤ) (l : Listing) :
    Option MatchRow :=
  let best := bestMatch (normTitle l.title) (comps.map Prod.fst)
  match attachedComp comps t l with
  | none =>
    some { source := l.source, title := l.title, url := l.url, price := l.price
           currency := l.currency, best_match_key := best.1, similarity := best.2
           avg_price := none, median_price := none, comp_count := 0
           discount_vs_avg_pct := none, discount_vs_median_pct := none }
  | some c =>
    if c.avg_price = 0 then
      some { source := l.source, title := l.title, url := l.url, price := l.price
             currency := l.currency, best_match_key := best.1, similarity := best.2
             avg_price := some c.avg_price, median_price := some c.median_price
             comp_count := c.count
             discount_vs_avg_pct := none, discount_vs_median_pct := none }
    else if c.median_price = 0 then none
    else
      some { source := l.source, title := l.title, url := l.url, price := l.price
             currency := l.currency, best_match_key := best.1, similarity := best.2
             avg_price := some c.avg_price, median_price := some c.median_price
             comp_count := c.count
             discount_vs_avg_pct := some (round2 (100 * (1 - l.price / c.avg_price)))
             discount_vs_median_pct := some (round2 (100 * (1 - l.price / c.median_price))) }

/-- `match_comps_to_live` (arb_finder.py, lines 452-484); `none` models the
function raising instead of returning its row list. -/
def match_comps_to_live (live : List Listing) (comps : List (String × Comp))
    (t : ℤ) : Option (List MatchRow) :=
  live.mapM (matchRow comps t)

/-- The sort/filter key of the `FILTER_SORT` step (arb_finder.py, lines
596-599): `r.get("discount_vs_avg_pct") or -999` — Python's `or` replaces
both `None` and the falsy `0.0` by `-999`. -/
def discountKey (r : MatchRow) : ℚ :=
  match r.discount_vs_avg_pct with
  | some d => if d = 0 then -999 else d
  | none => -999

/-- The relation rows are sorted by: descending `discountKey` (the
`reverse=True` sort of arb_finder.py, line 599). -/
def rowGe (a b : MatchRow) : Prop := discountKey b ≤ discountKey a

instance : DecidableRel rowGe := fun a b =>
  inferInstanceAs (Decidable (discountKey b ≤ discountKey a))

instance : IsTotal MatchRow rowGe := ⟨fun a b => le_total (discountKey b) (discountKey a)⟩

instance : IsTrans MatchRow rowGe := ⟨fun _ _ _ h1 h2 => le_trans h2 h1⟩

/-- The `FILTER_SORT` step of `run_arbfinder` (arb_finder.py, lines 596-599):
drop rows whose key is below the caller's threshold (when one is given), then
sort by the key, descending.  Python's `list.sort` is stable; so is insertion
sort. -/
def filterSortRows (thr : Option ℚ) (rows : List MatchRow) : List MatchRow :=
  let kept :=
    match thr with
    | some p => rows.filter (fun r => decide (p ≤ discountKey r))
    | none => rows
  List.insertionSort rowGe kept

/-- One persisted row of the `listings` table (arb_finder.py, lines 97-103). -/
structure DBListingRow where
  source : String
  url : String
  title : String
  price : ℚ
  currency : String
  condition : String
  ts : ℚ
  meta_json : List (String × String)
deriving DecidableEq

/-- The freshly inserted row for a listing, with an explicit `source` column
(the `INSERT` VALUES of arb_finder.py, lines 118-119). -/
def dbRow (src : String) (l : Listing) : DBListingRow :=
  { source := src, url := l.url, title := l.title, price := l.price
    currency := l.currency, condition := l.condition, ts := l.timestamp
    meta_json := l.meta }

/-- The column updates applied on a `url` conflict: the
`ON CONFLICT ... DO UPDATE SET` clause (arb_finder.py, lines 120-122) names
`title`, `price`, `currency`, `condition`, `ts` and `meta_json` — and not
`source`. -/
def dbUpdate (r : DBListingRow) (l : Listing) : DBListingRow :=
  { r with title := l.title, price := l.price, currency := l.currency
           condition := l.condition, ts := l.timestamp, meta_json := l.meta }

/-- `db_upsert_listing` (arb_finder.py, lines 113-135): insert if the url is
absent, else update the conflicting row's listed columns. -/
def db_upsert_listing (tbl : List DBListingRow) (l : Listing) : List DBListingRow :=
  if tbl.any (fun r => r.url == l.url) then
    tbl.map (fun r => if r.url == l.url then dbUpdate r l else r)
  else
    tbl ++ [dbRow l.source l]

/-- One attempt's outcome inside `PoliteClient.get`: the transport either
yields a response with a status code, or raises. -/
inductive FetchOutcome where
  | response (status : ℕ)
  | transportError
deriving DecidableEq

/-- The per-host last-request-time map `self._last` (arb_finder.py, line
159). -/
abbrev HostTimes := List (String × ℚ)

/-- `self._last[host] = time.time()`: set (or insert) the host's entry. -/
def setLast : HostTimes → String → ℚ → HostTimes
  | [], h, t => [(h, t)]
  | (h0, t0) :: rest, h, t =>
    if h0 = h then (h0, t) :: rest else (h0, t0) :: setLast rest h t

/-- `self._last.get(host)`. -/
def getLast (m : HostTimes) (h : String) : Option ℚ :=
  ((m.find? (fun p => p.1 == h)).map (fun p => p.2))

/-- The retry loop of `PoliteClient.get` (arb_finder.py, lines 173-187),
driven by the timed outcome of each attempt.  On a response the per-host
last-request time is set (line 177) and a 429/503 status is then raised and
retried (lines 178-179); on a transport error the assignment on line 177 is
never reached, so the map is untouched.  The `resp` accumulator models the
`resp` variable returned after the attempt cap. -/
def getAttempts (st : HostTimes) (host : String) (resp : Option ℕ) :
    List (ℚ × FetchOutcome) → HostTimes × Option ℕ
  | [] => (st, resp)
  | (tm, o) :: rest =>
    match o with
    | .transportError => getAttempts st host resp rest
    | .response s =>
      let st2 := setLast st host tm
      if s = 429 ∨ s = 503 then getAttempts st2 host (some s) rest
      else (st2, some s)

/-- The `FETCH_LIVE` loop of `run_arbfinder` (arb_finder.py, lines 578-589):
each selected provider's `search` either returns listings (extended into
`live`, the first accumulator) or raises (caught; one warning naming the
provider is logged, collected in the second accumulator). -/
def fetchGo (st : List Listing × List String) :
    List (String × Except String (List Listing)) → List Listing × List String
  | [] => st
  | p :: rest =>
    match p.2 with
    | .ok res => fetchGo (st.1 ++ res, st.2) rest
    | .error _ => fetchGo (st.1, st.2 ++ [p.1]) rest

/-- The live-fetch phase started from the empty accumulators, returning the
gathered live listings and the logged provider names. -/
def fetchLivePhase (provs : List (String × Except String (List Listing))) :
    List Listing × List String :=
  fetchGo ([], []) provs

/-- The live-fetch phase followed by the `MATCH` step (arb_finder.py, line
594). -/
def runLiveMatch (provs : List (String × Except String (List Listing)))
    (comps : List (String × Comp)) (t : ℤ) : Option (List MatchRow) :=
  match_comps_to_live (fetchLivePhase provs).1 comps t

/-- The body of `WatchMode._find_new_deals` (watch.py, lines 78-89):
`existing_urls` is a snapshot of the urls reported so far, taken once before
the loop; each result whose discount passes the threshold and whose url is not
in the snapshot is appended to the reported list and to `best_deals`.  The
result is `none` when Python raises: `result.get('discount_vs_avg_pct', 0)`
returns `None` for a present-but-null key, and `None >= threshold` is a
`TypeError`. -/
def findDealsGo (thr : ℚ) (existing : List String) :
    List MatchRow × List MatchRow → List MatchRow →
    Option (List MatchRow × List MatchRow)
  | st, [] => some st
  | st, r :: rest =>
    match r.discount_vs_avg_pct with
    | none => none
    | some d =>
      findDealsGo thr existing
        (if thr ≤ d ∧ r.url ∉ existing then (st.1 ++ [r], st.2 ++ [r]) else st) rest

/-- `WatchMode._find_new_deals` (watch.py, lines 78-89), returning the newly
reported deals and the grown `best_deals`. -/
def findNewDeals (thr : ℚ) (best : List MatchRow) (results : List MatchRow) :
    Option (List MatchRow × List MatchRow) :=
  findDealsGo thr (best.map (fun r => r.url)) ([], best) results

/-- The iteration structure of `WatchMode.run` (watch.py, lines 39-76) over a
given sequence of per-iteration search results: each iteration reports its new
deals; an exception inside the iteration (modelled by `findNewDeals` being
`none`) is caught and logged, leaving `best_deals` untouched and the iteration
reporting nothing.  Returns the reported list per iteration and the final
`best_deals`. -/
def watchRun (thr : ℚ) : List MatchRow → List (List MatchRow) →
    List (List MatchRow) × List MatchRow
  | best, [] => ([], best)
  | best, res :: rest =>
    match findNewDeals thr best res with
    | none =>
      let next := watchRun thr best rest
      ([] :: next.1, next.2)
    | some (nd, b2) =>
      let next := watchRun thr b2 rest
      (nd :: next.1, next.2)

/-! ### Concrete inputs used by witnesses and counterexamples -/

/-- A listing with source "src1" at url "u". -/
def exL1 : Listing :=
  { source := "src1", url := "u", title := "t1", price := 10, currency := "USD"
    condition := "live", timestamp := 1, meta := [] }

/-- A second listing at the same url "u", with source "src2" and every other
field different from `exL1`'s. -/
def exL2 : Listing :=
  { source := "src2", url := "u", title := "t2", price := 20, currency := "EUR"
    condition := "sold", timestamp := 2, meta := [] }

/-- A match row whose discount is exactly 0.0 (price equal to the comp
average). -/
def exRow0 : MatchRow :=
  { source := "shopgoodwill", title := "t", url := "u0", price := 100
    currency := "USD", best_match_key := some "t", similarity := 100
    avg_price := some 100, median_price := some 100, comp_count := 1
    discount_vs_avg_pct := some 0, discount_vs_median_pct := some 0 }

/-- A sold listing titled "t" at a given price. -/
def wT (p : ℚ) : Listing :=
  { source := "ebay_sold", url := "u", title := "t", price := p
    currency := "USD", condition := "sold", timestamp := 0, meta := [] }

/-- The comp map used by the discount-formula examples: one comp with average
and median price 100. -/
def compEx : List (String × Comp) :=
  [("widget", { key_title := "widget", avg_price := 100, median_price := 100, count := 3 })]

/-- A live listing titled "widget" at a given price. -/
def lw (p : ℚ) : Listing :=
  { source := "shopgoodwill", url := "uw", title := "widget", price := p
    currency := "USD", condition := "live", timestamp := 0, meta := [] }

/-- The expected matched row for a price-`p` "widget" listing against
`compEx`, with the given discounts. -/
def rowW (p dA dM : ℚ) : MatchRow :=
  { source := "shopgoodwill", title := "widget", url := "uw", price := p
    currency := "USD", best_match_key := some "widget", similarity := 100
    avg_price := some 100, median_price := some 100, comp_count := 3
    discount_vs_avg_pct := some dA, discount_vs_median_pct := some dM }

/-- A live listing titled "t" priced 50, matched against the zero-median comp
in the C8 counterexample. -/
def liveZ : Listing :=
  { source := "shopgoodwill", url := "uz", title := "t", price := 50
    currency := "USD", condition := "live", timestamp := 0, meta := [] }

/-- A whitespace-only-titled sold listing priced 10: its normalized title is
the empty string, so the comp builder makes `""` an exemplar key. -/
def blankSold : Listing :=
  { source := "ebay_sold", url := "ub", title := " ", price := 10
    currency := "USD", condition := "sold", timestamp := 0, meta := [] }

/-- A whitespace-only-titled live listing priced 5. -/
def blankLive : Listing :=
  { source := "shopgoodwill", url := "ubl", title := " ", price := 5
    currency := "USD", condition := "live", timestamp := 0, meta := [] }

/-- The row the Matcher actually produces for `blankLive` against the
empty-key comp: best key `""` with a perfect score, yet no comp attached and
both discounts null. -/
def blankRow : MatchRow :=
  { source := "shopgoodwill", title := " ", url := "ubl", price := 5
    currency := "USD", best_match_key := some "", similarity := 100
    avg_price := none, median_price := none, comp_count := 0
    discount_vs_avg_pct := none, discount_vs_median_pct := none }

/-- A sold listing titled "b a". -/
def ordA : Listing :=
  { source := "ebay_sold", url := "oa", title := "b a", price := 1
    currency := "USD", condition := "sold", timestamp := 0, meta := [] }

/-- A sold listing titled "a b" — a different normalized title than `ordA`'s,
with the same token set. -/
def ordB : Listing :=
  { source := "ebay_sold", url := "ob", title := "a b", price := 2
    currency := "USD", condition := "sold", timestamp := 0, meta := [] }

/-- Sold listing titled "a c e f g" (the first exemplar of the C10 run). -/
def cx : Listing :=
  { source := "ebay_sold", url := "cx", title := "a c e f g", price := 1
    currency := "USD", condition := "sold", timestamp := 0, meta := [] }

/-- Sold listing titled "a b c d". -/
def cy : Listing :=
  { source := "ebay_sold", url := "cy", title := "a b c d", price := 2
    currency := "USD", condition := "sold", timestamp := 0, meta := [] }

/-- Sold listing titled "a b p q". -/
def cz : Listing :=
  { source := "ebay_sold", url := "cz", title := "a b p q", price := 3
    currency := "USD", condition := "sold", timestamp := 0, meta := [] }

/-- Sold listing titled "c d r s". -/
def cw : Listing :=
  { source := "ebay_sold", url := "cw", title := "c d r s", price := 4
    currency := "USD", condition := "sold", timestamp := 0, meta := [] }

/-- A qualifying deal row: discount 50, url "ud". -/
def exDeal : MatchRow :=
  { source := "shopgoodwill", title := "deal", url := "ud", price := 50
    currency := "USD", best_match_key := some "deal", similarity := 100
    avg_price := some 100, median_price := some 100, comp_count := 2
    discount_vs_avg_pct := some 50, discount_vs_median_pct := some 50 }

/-! ### Supporting lemmas -/

/-- Unfolding the live-fetch loop from an arbitrary accumulator. -/
theorem fetchGo_acc (ps : List (String × Except String (List Listing)))
    (a : List Listing) (b : List String) :
    fetchGo (a, b) ps = (a ++ (fetchLivePhase ps).1, b ++ (fetchLivePhase ps).2) := by
  induction ps generalizing a b with
  | nil => simp [fetchGo, fetchLivePhase]
  | cons p rest ih =>
    obtain ⟨n, r⟩ := p
    cases r with
    | ok res =>
      show fetchGo (a ++ res, b) rest = _
      rw [ih (a ++ res) b]
      have hbase : fetchLivePhase ((n, Except.ok res) :: rest) =
          (res ++ (fetchLivePhase rest).1, (fetchLivePhase rest).2) := by
        show fetchGo ([] ++ res, []) rest = _
        rw [ih ([] ++ res) []]
        simp
      rw [hbase]
      simp
    | error msg =>
      show fetchGo (a, b ++ [n]) rest = _
      rw [ih a (b ++ [n])]
      have hbase : fetchLivePhase ((n, Except.error msg) :: rest) =
          ((fetchLivePhase rest).1, n :: (fetchLivePhase rest).2) := by
        show fetchGo ([], [] ++ [n]) rest = _
        rw [ih [] ([] ++ [n])]
        simp
      rw [hbase]
      simp

/-- Every name logged by the live-fetch phase names one of its providers. -/
theorem fetchLivePhase_log_mem (ps : List (String × Except String (List Listing)))
    (x : String) (hx : x ∈ (fetchLivePhase ps).2) : ∃ p ∈ ps, p.1 = x := by
  induction ps with
  | nil => simp [fetchLivePhase, fetchGo] at hx
  | cons p rest ih =>
    obtain ⟨n, r⟩ := p
    cases r with
    | ok res =>
      have hbase : fetchLivePhase ((n, Except.ok res) :: rest) =
          (res ++ (fetchLivePhase rest).1, (fetchLivePhase rest).2) := by
        show fetchGo ([] ++ res, []) rest = _
        rw [fetchGo_acc rest ([] ++ res) []]
        simp
      rw [hbase] at hx
      obtain ⟨q, hq, hqx⟩ := ih hx
      exact ⟨q, List.mem_cons_of_mem _ hq, hqx⟩
    | error msg =>
      have hbase : fetchLivePhase ((n, Except.error msg) :: rest) =
          ((fetchLivePhase rest).1, n :: (fetchLivePhase rest).2) := by
        show fetchGo ([], [] ++ [n]) rest = _
        rw [fetchGo_acc rest [] ([] ++ [n])]
        simp
      rw [hbase] at hx
      rcases List.mem_cons.mp hx with h | h
      · exact ⟨(n, Except.error msg), List.mem_cons_self _ rest, h.symm⟩
      · obtain ⟨q, hq, hqx⟩ := ih h
        exact ⟨q, List.mem_cons_of_mem _ hq, hqx⟩

/-- The live-fetch phase distributes over list append. -/
theorem fetchLivePhase_append (ps qs : List (String × Except String (List Listing))) :
    fetchLivePhase (ps ++ qs) =
      ((fetchLivePhase ps).1 ++ (fetchLivePhase qs).1,
       (fetchLivePhase ps).2 ++ (fetchLivePhase qs).2) := by
  induction ps with
  | nil => simp [fetchLivePhase, fetchGo]
  | cons p rest ih =>
    obtain ⟨n, r⟩ := p
    cases r with
    | ok res =>
      have h1 : fetchLivePhase (((n, Except.ok res) :: rest) ++ qs) =
          (res ++ (fetchLivePhase (rest ++ qs)).1, (fetchLivePhase (rest ++ qs)).2) := by
        show fetchGo ([] ++ res, []) (rest ++ qs) = _
        rw [fetchGo_acc (rest ++ qs) ([] ++ res) []]
        simp
      have h2 : fetchLivePhase ((n, Except.ok res) :: rest) =
          (res ++ (fetchLivePhase rest).1, (fetchLivePhase rest).2) := by
        show fetchGo ([] ++ res, []) rest = _
        rw [fetchGo_acc rest ([] ++ res) []]
        simp
      rw [h1, h2, ih]
      simp
    | error msg =>
      have h1 : fetchLivePhase (((n, Except.error msg) :: rest) ++ qs) =
          ((fetchLivePhase (rest ++ qs)).1, n :: (fetchLivePhase (rest ++ qs)).2) := by
        show fetchGo ([], [] ++ [n]) (rest ++ qs) = _
        rw [fetchGo_acc (rest ++ qs) [] ([] ++ [n])]
        simp
      have h2 : fetchLivePhase ((n, Except.error msg) :: rest) =
          ((fetchLivePhase rest).1, n :: (fetchLivePhase rest).2) := by
        show fetchGo ([], [] ++ [n]) rest = _
        rw [fetchGo_acc rest [] ([] ++ [n])]
        simp
      rw [h1, h2, ih]
      simp

/-- `setLast` really records the time for the host it was called with. -/
theorem getLast_setLast (st : HostTimes) (h : String) (t : ℚ) :
    getLast (setLast st h t) h = some t := by
  induction st with
  | nil => simp [setLast, getLast]
  | cons p rest ih =>
    by_cases hp : p.1 = h
    · simp [setLast, hp, getLast]
    · simpa [setLast, hp, getLast, List.find?, beq_iff_eq] using ih

/-- Upserting a listing whose url is absent appends a full fresh row. -/
theorem db_upsert_fresh (s : List DBListingRow) (l : Listing)
    (h : ∀ r ∈ s, r.url ≠ l.url) :
    db_upsert_listing s l = s ++ [dbRow l.source l] := by
  have hany : s.any (fun r => r.url == l.url) = false := by
    simp only [List.any_eq_false, beq_iff_eq]
    exact h
  simp [db_upsert_listing, hany]

/-! ### C5: one failing provider is isolated -/

/-- C5: if one selected provider's `search` raises on every call (so on its
single call in the run), the live-fetch phase still completes: the failing
provider contributes zero listings (the gathered live list is exactly the
concatenation of the other providers' results), its failure is logged exactly
once, and the `MATCH` step runs on the remaining providers' listings alone. -/
theorem c5_provider_failure_isolated
    (pre post : List (String × Except String (List Listing))) (name e : String)
    (comps : List (String × Comp)) (t : ℤ)
    (hpre : ∀ p ∈ pre, p.1 ≠ name) (hpost : ∀ p ∈ post, p.1 ≠ name) :
    (fetchLivePhase (pre ++ (name, Except.error e) :: post)).1 =
      (fetchLivePhase pre).1 ++ (fetchLivePhase post).1 ∧
    ((fetchLivePhase (pre ++ (name, Except.error e) :: post)).2).count name = 1 ∧
    runLiveMatch (pre ++ (name, Except.error e) :: post) comps t =
      match_comps_to_live ((fetchLivePhase pre).1 ++ (fetchLivePhase post).1) comps t := by
  have hmid : fetchLivePhase ((name, Except.error e) :: post) =
      ((fetchLivePhase post).1, name :: (fetchLivePhase post).2) := by
    show fetchGo ([], [] ++ [name]) post = _
    rw [fetchGo_acc post [] ([] ++ [name])]
    simp
  have hsplit := fetchLivePhase_append pre ((name, Except.error e) :: post)
  rw [hmid] at hsplit
  have hlive : (fetchLivePhase (pre ++ (name, Except.error e) :: post)).1 =
      (fetchLivePhase pre).1 ++ (fetchLivePhase post).1 := by
    rw [hsplit]
  have hcount : ((fetchLivePhase (pre ++ (name, Except.error e) :: post)).2).count name = 1 := by
    rw [hsplit]
    show ((fetchLivePhase pre).2 ++ name :: (fetchLivePhase post).2).count name = 1
    rw [List.count_append, List.count_cons]
    have hzpre : ((fetchLivePhase pre).2).count name = 0 := by
      rw [List.count_eq_zero]
      intro hmem
      obtain ⟨p, hp, hpn⟩ := fetchLivePhase_log_mem pre name hmem
      exact hpre p hp hpn
    have hzpost : ((fetchLivePhase post).2).count name = 0 := by
      rw [List.count_eq_zero]
      intro hmem
      obtain ⟨p, hp, hpn⟩ := fetchLivePhase_log_mem post name hmem
      exact hpost p hp hpn
    simp [hzpre, hzpost]
  exact ⟨hlive, hcount, by rw [runLiveMatch, hlive]⟩

/-- C5 witness: three providers of which the middle one raises; the theorem
applied at this concrete run. -/
theorem c5_witness :
    (fetchLivePhase [("shopgoodwill", Except.ok [exL1]), ("govdeals", Except.error "boom"),
        ("governmentsurplus", Except.ok [exL2])]).1 = [exL1] ++ [exL2] ∧
    ((fetchLivePhase [("shopgoodwill", Except.ok [exL1]), ("govdeals", Except.error "boom"),
        ("governmentsurplus", Except.ok [exL2])]).2).count ("govdeals") = 1 := by
  have h := c5_provider_failure_isolated [(("shopgoodwill" : String), Except.ok [exL1])]
    [(("governmentsurplus" : String), Except.ok [exL2])] ("govdeals") ("boom") [] 86
    (by intro p hp; simp at hp; subst hp; decide)
    (by intro p hp; simp at hp; subst hp; decide)
  refine ⟨?_, ?_⟩
  · have h1 := h.1
    simpa [fetchLivePhase, fetchGo] using h1
  · exact h.2.1

/-! ### C6: FILTER_SORT semantics -/

/-- C6 counterexample.  The claim says `FILTER_SORT` keeps exactly the rows
whose discount is non-null and at least the threshold.  The code's key is
`r.get("discount_vs_avg_pct") or -999` (arb_finder.py, line 597), and Python's
`or` also replaces the falsy discount `0.0` by `-999`: a row with discount
exactly 0.0 and threshold 0.0 should be kept on the claim's reading
(`0 ≥ 0`, non-null), but the code drops it. -/
theorem c6_zero_discount_dropped :
    exRow0.discount_vs_avg_pct = some 0 ∧ ((0 : ℚ) ≤ 0) ∧
    filterSortRows (some 0) [exRow0] = [] := by
  refine ⟨rfl, le_refl 0, ?_⟩
  have hk : discountKey exRow0 = -999 := rfl
  simp [filterSortRows, hk, List.insertionSort]

/-- C6 as amended: `FILTER_SORT` maps each row's discount to the sort/filter
key `-999` when it is null **or exactly zero** (Python's falsy `or`), and
otherwise to the discount itself; it keeps exactly the rows whose key is at
least the caller's threshold and sorts the kept rows by that key, descending.
In particular a null key is `-999` — not the lowest possible value, and a
null row is kept whenever the threshold is at most `-999`. -/
theorem c6_filter_sort_by_key (p : ℚ) (rows : List MatchRow) :
    (filterSortRows (some p) rows).Perm
      (rows.filter (fun r => decide (p ≤ discountKey r))) ∧
    List.Sorted rowGe (filterSortRows (some p) rows) ∧
    (∀ r : MatchRow, r.discount_vs_avg_pct = none → discountKey r = -999) ∧
    (∀ r : MatchRow, r.discount_vs_avg_pct = some 0 → discountKey r = -999) ∧
    (∀ (r : MatchRow) (d : ℚ), r.discount_vs_avg_pct = some d → d ≠ 0 →
      discountKey r = d) := by
  refine ⟨List.perm_insertionSort rowGe _, List.sorted_insertionSort rowGe _, ?_, ?_, ?_⟩
  · intro r hr
    simp [discountKey, hr]
  · intro r hr
    simp [discountKey, hr]
  · intro r d hr hd
    simp [discountKey, hr, hd]

/-- C6 witness: the amended FILTER_SORT theorem applied at threshold `-1000`
and the zero-discount row, whose key the theorem computes as `-999`. -/
theorem c6_filter_sort_witness :
    (filterSortRows (some (-1000)) [exRow0]).Perm
      ([exRow0].filter (fun r => decide ((-1000 : ℚ) ≤ discountKey r))) ∧
    discountKey exRow0 = -999 := by
  exact ⟨(c6_filter_sort_by_key (-1000) [exRow0]).1,
    (c6_filter_sort_by_key (-1000) [exRow0]).2.2.2.1 exRow0 rfl⟩

/-! ### C9: fetch-client last-request-time bookkeeping -/

/-- C9 counterexample.  The claim says the per-host last-request time is
updated on every attempt "regardless of the attempt's outcome", transport
errors included.  In the code the update `self._last[host] = time.time()`
(arb_finder.py, line 177) sits after the awaited request inside the `try`, so
an attempt whose transport raises never reaches it: starting from an empty
map, a single failing attempt at time 5 leaves the host with no recorded
last-request time at all. -/
theorem c9_transport_error_skips_update :
    (getAttempts [] ("h") none [((5 : ℚ), FetchOutcome.transportError)]).1 = [] ∧
    getLast (getAttempts [] ("h") none [((5 : ℚ), FetchOutcome.transportError)]).1 ("h")
      = none := by
  constructor <;> rfl

/-- C9 as amended: the per-host last-request time is updated on every attempt
that obtains a response — both a normal status and a rate-limit/unavailable
status (429/503) — but an attempt whose transport raises leaves the map
exactly as it was. -/
theorem c9_update_iff_response (st : HostTimes) (host : String) (resp : Option ℕ)
    (tm : ℚ) (s : ℕ) (rest : List (ℚ × FetchOutcome)) :
    getLast (getAttempts st host resp [(tm, FetchOutcome.response s)]).1 host = some tm ∧
    getAttempts st host resp ((tm, FetchOutcome.transportError) :: rest) =
      getAttempts st host resp rest := by
  refine ⟨?_, rfl⟩
  by_cases h429 : s = 429 ∨ s = 503
  · simp [getAttempts, h429, getLast_setLast]
  · simp [getAttempts, h429, getLast_setLast]

/-! ### C2: upsert overwrite semantics -/

/-- C2 counterexample.  The claim says the second upsert overwrites every
field, `source` included.  The `ON CONFLICT(url) DO UPDATE SET` clause
(arb_finder.py, lines 120-122) updates `title`, `price`, `currency`,
`condition`, `ts` and `meta_json` but not `source`: after upserting L1 with
source "src1" and L2 with source "src2" at the same url, the single stored row
still carries L1's source "src1", not L2's. -/
theorem c2_source_not_overwritten :
    db_upsert_listing (db_upsert_listing [] exL1) exL2 = [dbRow ("src1") { exL2 with url := "u" }] ∧
    exL2.source = "src2" ∧ ("src1" : String) ≠ "src2" := by
  refine ⟨by decide, by decide, by decide⟩

/-- C2 as amended: for listings L1, L2 sharing a url and a store not yet
holding that url, upserting L1 then L2 leaves exactly one row for the url,
whose `title`, `price`, `currency`, `condition`, `ts` and `meta_json` are
L2's — while `source` keeps L1's value (the conflict clause does not update
it). -/
theorem c2_upsert_overwrites_all_but_source (s : List DBListingRow)
    (L1 L2 : Listing) (hurl : L1.url = L2.url)
    (habsent : ∀ r ∈ s, r.url ≠ L2.url) :
    db_upsert_listing (db_upsert_listing s L1) L2 = s ++ [dbUpdate (dbRow L1.source L1) L2] ∧
    (dbUpdate (dbRow L1.source L1) L2).source = L1.source ∧
    dbUpdate (dbRow L1.source L1) L2 = dbRow L1.source { L2 with url := L1.url } ∧
    ((db_upsert_listing (db_upsert_listing s L1) L2).filter
        (fun r => r.url == L2.url)).length = 1 := by
  have h1 : db_upsert_listing s L1 = s ++ [dbRow L1.source L1] :=
    db_upsert_fresh s L1 (fun r hr => hurl ▸ habsent r hr)
  have hany : ((s ++ [dbRow L1.source L1]).any (fun r => r.url == L2.url)) = true := by
    simp [List.any_append, dbRow, hurl]
  have hmap : ∀ r ∈ s,
      (if r.url == L2.url then dbUpdate r L2 else r) = r := by
    intro r hr
    simp [beq_iff_eq, habsent r hr]
  have h2 : db_upsert_listing (db_upsert_listing s L1) L2 =
      s ++ [dbUpdate (dbRow L1.source L1) L2] := by
    rw [h1]
    simp only [db_upsert_listing, hany, if_true, List.map_append, List.map_cons,
      List.map_nil]
    rw [List.map_congr_left hmap]
    simp [dbRow, hurl]
  refine ⟨h2, rfl, by simp [dbRow, dbUpdate], ?_⟩
  rw [h2, List.filter_append]
  have hnil : s.filter (fun r => r.url == L2.url) = [] := by
    simp only [List.filter_eq_nil_iff, beq_iff_eq]
    exact habsent
  simp [hnil, dbRow, dbUpdate, hurl]

/-- C2 witness: the amended upsert theorem applied at a concrete store and
concrete listings. -/
theorem c2_upsert_witness :
    db_upsert_listing (db_upsert_listing [] exL1) exL2 = [dbUpdate (dbRow (exL1.source) exL1) exL2] ∧
    (dbUpdate (dbRow (exL1.source) exL1) exL2).source = exL1.source := by
  have h := c2_upsert_overwrites_all_but_source [] exL1 exL2
    (by decide) (by intro r hr; simp at hr)
  exact ⟨by simpa using h.1, h.2.1⟩

/-! ### C7: cluster statistics -/

/-- C7: every comp produced by the comp builder carries the size of its
cluster, the arithmetic mean of the cluster's prices, and the odd/even median
of the sorted prices as the claim words it; in particular one-cluster inputs
with prices [10, 20, 30] give median 20 and [10, 20, 30, 40] give median
25. -/
theorem c7_cluster_stats :
    (∀ (ls : List Listing) (t : ℤ) (k : String) (c : Comp),
        (k, c) ∈ compute_comps ls t →
        ∃ mem, (k, mem) ∈ clusters ls t ∧
          c.count = mem.length ∧
          c.avg_price = (mem.map Listing.price).sum / (mem.length : ℚ) ∧
          c.median_price = medianSpec (List.insertionSort (· ≤ ·) (mem.map Listing.price))) ∧
    compute_comps [wT 10, wT 20, wT 30] 86 =
      [(("t" : String), { key_title := "t", avg_price := 20, median_price := 20, count := 3 })] ∧
    compute_comps [wT 10, wT 20, wT 30, wT 40] 86 =
      [(("t" : String), { key_title := "t", avg_price := 25, median_price := 25, count := 4 })] := by
  refine ⟨?_, ?_, ?_⟩
  · intro ls t k c hmem
    by_cases hls : ls = []
    · subst hls
      simp [compute_comps] at hmem
    · rw [compute_comps, if_neg hls] at hmem
      obtain ⟨kb, hkb, heq⟩ := List.mem_map.mp hmem
      cases heq
      refine ⟨kb.2, by simpa using hkb, ?_, ?_, ?_⟩
      · simp [mkComp, List.length_insertionSort]
      · simp [mkComp, List.length_insertionSort]
      · simp [mkComp, medianSpec, List.length_insertionSort]
  · have hc : clusters [wT 10, wT 20, wT 30] 86 = [("t", [wT 10, wT 20, wT 30])] := by decide
    simp [compute_comps, hc, mkComp, List.insertionSort, List.orderedInsert]
    norm_num [wT]
  · have hc : clusters [wT 10, wT 20, wT 30, wT 40] 86 =
        [("t", [wT 10, wT 20, wT 30, wT 40])] := by decide
    simp [compute_comps, hc, mkComp, List.insertionSort, List.orderedInsert]
    norm_num [wT]

/-- C7 witness: the per-cluster statistics theorem applied to the concrete
three-listing cluster of the claim's example. -/
theorem c7_cluster_stats_witness :
    ∃ mem, (("t" : String), mem) ∈ clusters [wT 10, wT 20, wT 30] 86 ∧
      (3 : ℕ) = mem.length ∧
      (20 : ℚ) = (mem.map Listing.price).sum / (mem.length : ℚ) ∧
      (20 : ℚ) = medianSpec (List.insertionSort (· ≤ ·) (mem.map Listing.price)) := by
  have h := c7_cluster_stats.1 [wT 10, wT 20, wT 30] 86 ("t")
    { key_title := "t", avg_price := 20, median_price := 20, count := 3 }
    (by rw [c7_cluster_stats.2.1]; exact List.mem_singleton.mpr rfl)
  simpa using h

/-! ### C1: the discount formulas -/

/-- C1 counterexample.  The claim says: whenever the best-scoring comp
exemplar meets the similarity threshold and its `avg_price` is positive, the
discounts are computed.  The code's attach condition
`best_key and best_score >= sim_threshold` (arb_finder.py, line 464) also
requires `best_key` to be truthy, so the empty-string exemplar — which the
comp builder produces for whitespace-only titles — is treated as no match:
here the best (and only) exemplar `""` scores at least the threshold 0 and
has `avg_price` 10 > 0, yet both discount fields come back null instead of
the claimed `100 * (1 - 5/10) = 50.0`. -/
theorem c1_empty_key_counterexample :
    compute_comps [blankSold] 86 =
      [(("" : String), { key_title := "", avg_price := 10, median_price := 10, count := 1 })] ∧
    bestMatch (normTitle blankLive.title) ((compute_comps [blankSold] 86).map Prod.fst) =
      (some "", 100) ∧
    ((0 : ℤ) ≤ 100) ∧ ((0 : ℚ) < 10) ∧
    matchRow (compute_comps [blankSold] 86) 0 blankLive = some blankRow ∧
    blankRow.discount_vs_avg_pct = none ∧
    (some (round2 (100 * (1 - blankLive.price / 10))) : Option ℚ) ≠ none := by
  have hcl : clusters [blankSold] 86 = [("", [blankSold])] := by decide
  have hcc : compute_comps [blankSold] 86 =
      [(("" : String), { key_title := "", avg_price := 10, median_price := 10, count := 1 })] := by
    simp [compute_comps, hcl, mkComp, List.insertionSort, List.orderedInsert]
    norm_num [blankSold]
  refine ⟨hcc, ?_, by norm_num, by norm_num, ?_, rfl, by simp⟩
  · rw [hcc]
    decide
  · rw [hcc]
    decide

/-- C1 as amended: for every live listing given a produced MatchRow, if a comp
is attached (the best-scoring exemplar is non-empty and meets the threshold)
and its average price is positive, the discounts are
`round(100*(1 - price/avg), 2)` and `round(100*(1 - price/median), 2)`;
if the attached comp's average price is zero, or no comp is attached at all,
both discounts are null.  The claim's three worked examples (price 80, 100,
120 against average 100) give 20.0, 0.0 and -20.0. -/
theorem c1_discount_formula :
    (∀ (comps : List (String × Comp)) (t : ℤ) (l : Listing) (r : MatchRow) (c : Comp),
        matchRow comps t l = some r →
        attachedComp comps t l = some c →
        ((0 < c.avg_price →
            r.discount_vs_avg_pct = some (round2 (100 * (1 - l.price / c.avg_price))) ∧
            r.discount_vs_median_pct = some (round2 (100 * (1 - l.price / c.median_price)))) ∧
         (c.avg_price = 0 →
            r.discount_vs_avg_pct = none ∧ r.discount_vs_median_pct = none))) ∧
    (∀ (comps : List (String × Comp)) (t : ℤ) (l : Listing) (r : MatchRow),
        matchRow comps t l = some r →
        attachedComp comps t l = none →
        r.discount_vs_avg_pct = none ∧ r.discount_vs_median_pct = none) ∧
    matchRow compEx 86 (lw 80) = some (rowW 80 20 20) ∧
    matchRow compEx 86 (lw 100) = some (rowW 100 0 0) ∧
    matchRow compEx 86 (lw 120) = some (rowW 120 (-20) (-20)) := by
  refine ⟨?_, ?_, ?_, ?_, ?_⟩
  · intro comps t l r c hm hc
    rw [matchRow] at hm
    simp only [hc] at hm
    constructor
    · intro hpos
      rw [if_neg (ne_of_gt hpos)] at hm
      by_cases hmed : c.median_price = 0
      · rw [if_pos hmed] at hm
        exact absurd hm (by simp)
      · rw [if_neg hmed] at hm
        have hr := Option.some.inj hm
        subst hr
        exact ⟨rfl, rfl⟩
    · intro h0
      rw [if_pos h0] at hm
      have hr := Option.some.inj hm
      subst hr
      exact ⟨rfl, rfl⟩
  · intro comps t l r hm hc
    rw [matchRow] at hm
    simp only [hc] at hm
    have hr := Option.some.inj hm
    subst hr
    exact ⟨rfl, rfl⟩
  · rw [matchRow]
    have hA80 : attachedComp compEx 86 (lw 80) =
        some { key_title := "widget", avg_price := 100, median_price := 100, count := 3 } := by
      decide
    have hb80 : bestMatch (normTitle (lw 80).title) (compEx.map Prod.fst) = (some "widget", 100) := by
      decide
    simp only [hA80, hb80]
    norm_num [rowW, lw, round2, roundHalfEven]
  · rw [matchRow]
    have hA100 : attachedComp compEx 86 (lw 100) =
        some { key_title := "widget", avg_price := 100, median_price := 100, count := 3 } := by
      decide
    have hb100 : bestMatch (normTitle (lw 100).title) (compEx.map Prod.fst) = (some "widget", 100) := by
      decide
    simp only [hA100, hb100]
    norm_num [rowW, lw, round2, roundHalfEven]
  · rw [matchRow]
    have hA120 : attachedComp compEx 86 (lw 120) =
        some { key_title := "widget", avg_price := 100, median_price := 100, count := 3 } := by
      decide
    have hb120 : bestMatch (normTitle (lw 120).title) (compEx.map Prod.fst) = (some "widget", 100) := by
      decide
    simp only [hA120, hb120]
    norm_num [rowW, lw, round2, roundHalfEven]

/-- C1 witness: the amended discount theorem applied at the concrete
price-80 example row, discharging its hypotheses there. -/
theorem c1_discount_witness :
    (rowW 80 20 20).discount_vs_avg_pct =
      some (round2 (100 * (1 - (lw 80).price / 100))) ∧
    (rowW 80 20 20).discount_vs_median_pct =
      some (round2 (100 * (1 - (lw 80).price / 100))) := by
  have hA : attachedComp compEx 86 (lw 80) =
      some { key_title := "widget", avg_price := 100, median_price := 100, count := 3 } := by
    decide
  have h := (c1_discount_formula.1 compEx 86 (lw 80) (rowW 80 20 20)
    { key_title := "widget", avg_price := 100, median_price := 100, count := 3 }
    c1_discount_formula.2.2.1 hA).1 (by norm_num)
  exact h

/-! ### C8: Matcher totality -/

/-- Any comp attached by the Matcher appears in the comp map. -/
theorem attachedComp_mem (comps : List (String × Comp)) (t : ℤ) (l : Listing)
    (c : Comp) (h : attachedComp comps t l = some c) : ∃ kc ∈ comps, kc.2 = c := by
  rw [attachedComp] at h
  cases hb : bestMatch (normTitle l.title) (comps.map Prod.fst) with
  | mk bk bs =>
    rw [hb] at h
    cases bk with
    | none => simp at h
    | some k =>
      by_cases hcond : k ≠ "" ∧ t ≤ bs
      · rw [show (match (some k, bs) with
            | (some k, s) => if k ≠ "" ∧ t ≤ s then compGet comps k else none
            | (none, _) => none) = if k ≠ "" ∧ t ≤ bs then compGet comps k else none
            from rfl, if_pos hcond] at h
        rw [compGet] at h
        cases hf : comps.find? (fun kc => kc.1 == k) with
        | none => rw [hf] at h; simp at h
        | some kc =>
          rw [hf] at h
          simp only [Option.map_some'] at h
          exact ⟨kc, List.mem_of_find?_eq_some hf, Option.some.inj h⟩
      · rw [show (match (some k, bs) with
            | (some k, s) => if k ≠ "" ∧ t ≤ s then compGet comps k else none
            | (none, _) => none) = if k ≠ "" ∧ t ≤ bs then compGet comps k else none
            from rfl, if_neg hcond] at h
        simp at h

/-- A single Matcher row is produced (no exception) whenever every comp with
non-zero average also has non-zero median. -/
theorem matchRow_isSome (comps : List (String × Comp)) (t : ℤ) (l : Listing)
    (hyp : ∀ kc ∈ comps, kc.2.avg_price ≠ 0 → kc.2.median_price ≠ 0) :
    (matchRow comps t l).isSome := by
  rw [matchRow]
  cases hA : attachedComp comps t l with
  | none => simp [hA]
  | some c =>
    simp only [hA]
    by_cases h0 : c.avg_price = 0
    · simp [h0]
    · obtain ⟨kc, hkc, hkc2⟩ := attachedComp_mem comps t l c hA
      have hmed : c.median_price ≠ 0 := by
        rw [← hkc2]
        exact hyp kc hkc (by rw [hkc2]; exact h0)
      simp [h0, hmed]

/-- C8 counterexample.  The claim says the Matcher is total for non-negative
prices, "even when the matched Comp has a positive avg_price but a
median_price of zero".  Sold listings titled "t" priced 0, 0 and 30 — all
non-negative — cluster into a comp with average 10 and median 0; matching a
live "t" listing against it reaches
`round(100.0 * (1 - lst.price / comp.median_price), 2)` (arb_finder.py, line
479) with `median_price == 0`, a `ZeroDivisionError`, so no row list is
returned at all. -/
theorem c8_zero_median_divides :
    compute_comps [wT 0, wT 0, wT 30] 86 =
      [(("t" : String), { key_title := "t", avg_price := 10, median_price := 0, count := 3 })] ∧
    (∀ l ∈ [wT 0, wT 0, wT 30], 0 ≤ l.price) ∧ ((0 : ℚ) < 10) ∧
    match_comps_to_live [liveZ] (compute_comps [wT 0, wT 0, wT 30] 86) 86 = none := by
  have hcl : clusters [wT 0, wT 0, wT 30] 86 = [("t", [wT 0, wT 0, wT 30])] := by decide
  have hcc : compute_comps [wT 0, wT 0, wT 30] 86 =
      [(("t" : String), { key_title := "t", avg_price := 10, median_price := 0, count := 3 })] := by
    simp [compute_comps, hcl, mkComp, List.insertionSort, List.orderedInsert]
    norm_num [wT]
  refine ⟨hcc, ?_, by norm_num, ?_⟩
  · intro l hl
    simp only [List.mem_cons, List.not_mem_nil, or_false] at hl
    rcases hl with rfl | rfl | rfl <;> norm_num [wT]
  · rw [hcc]
    have hA : attachedComp
        [(("t" : String), { key_title := "t", avg_price := 10, median_price := 0, count := 3 })]
        86 liveZ =
        some { key_title := "t", avg_price := 10, median_price := 0, count := 3 } := by
      rw [attachedComp]
      have hb : bestMatch (normTitle liveZ.title)
          (([(("t" : String), ({ key_title := "t", avg_price := 10, median_price := 0, count := 3 } : Comp))]).map
            Prod.fst) = (some "t", 100) := by decide
      rw [hb]
      decide
    rw [match_comps_to_live]
    rw [List.mapM_cons]
    rw [matchRow]
    simp only [hA]
    norm_num

/-- C8 as amended: the Matcher is total — one MatchRow per live listing —
for every comp map in which a comp with non-zero average price also has a
non-zero median price (in particular whenever all clustered prices are
positive); a comp with positive average and zero median instead makes the
discount computation divide by zero. -/
theorem c8_matcher_total_when_medians_nonzero
    (live : List Listing) (comps : List (String × Comp)) (t : ℤ)
    (hyp : ∀ kc ∈ comps, kc.2.avg_price ≠ 0 → kc.2.median_price ≠ 0) :
    ∃ rows, match_comps_to_live live comps t = some rows ∧ rows.length = live.length := by
  induction live with
  | nil => exact ⟨[], rfl, rfl⟩
  | cons l rest ih =>
    obtain ⟨rows, hr, hlen⟩ := ih
    obtain ⟨r, hr0⟩ := Option.isSome_iff_exists.mp (matchRow_isSome comps t l hyp)
    refine ⟨r :: rows, ?_, by simp [hlen]⟩
    rw [match_comps_to_live] at hr ⊢
    rw [List.mapM_cons, hr0, hr]
    rfl

/-- C8 witness: the totality theorem applied to one live listing and a
one-comp map with non-zero average and median. -/
theorem c8_matcher_total_witness :
    ∃ rows, match_comps_to_live [liveZ]
      [(("t" : String), { key_title := "t", avg_price := 10, median_price := 5, count := 3 })]
      86 = some rows ∧ rows.length = 1 := by
  have h := c8_matcher_total_when_medians_nonzero [liveZ]
    [(("t" : String), { key_title := "t", avg_price := 10, median_price := 5, count := 3 })] 86
    (by
      intro kc hkc h0
      simp only [List.mem_singleton] at hkc
      subst hkc
      norm_num)
  simpa using h

/-! ### C4: watch-loop deduplication -/

/-- The deal-collection loop only ever appends, and appends the same rows to
the reported list and to `best_deals`. -/
theorem findDealsGo_grow (thr : ℚ) (ex : List String) :
    ∀ (rs : List MatchRow) (st st2 : List MatchRow × List MatchRow),
      findDealsGo thr ex st rs = some st2 →
      ∃ extra, st2.1 = st.1 ++ extra ∧ st2.2 = st.2 ++ extra := by
  intro rs
  induction rs with
  | nil =>
    intro st st2 h
    rw [findDealsGo] at h
    exact ⟨[], by simp [← Option.some.inj h], by simp [← Option.some.inj h]⟩
  | cons r rest ih =>
    intro st st2 h
    rw [findDealsGo] at h
    cases hd : r.discount_vs_avg_pct with
    | none => simp only [hd] at h; simp at h
    | some d =>
      simp only [hd] at h
      by_cases hc : thr ≤ d ∧ r.url ∉ ex
      · rw [if_pos hc] at h
        obtain ⟨extra, h1, h2⟩ := ih _ _ h
        exact ⟨r :: extra, by simpa using h1, by simpa using h2⟩
      · rw [if_neg hc] at h
        exact ih _ _ h

/-- Every row the collection loop reports was either already in the reported
accumulator or has a url outside the `existing_urls` snapshot. -/
theorem findDealsGo_reported_new (thr : ℚ) (ex : List String) :
    ∀ (rs : List MatchRow) (st st2 : List MatchRow × List MatchRow),
      findDealsGo thr ex st rs = some st2 →
      ∀ r ∈ st2.1, r ∈ st.1 ∨ r.url ∉ ex := by
  intro rs
  induction rs with
  | nil =>
    intro st st2 h r hr
    rw [findDealsGo] at h
    rw [← Option.some.inj h] at hr
    exact Or.inl hr
  | cons r0 rest ih =>
    intro st st2 h r hr
    rw [findDealsGo] at h
    cases hd : r0.discount_vs_avg_pct with
    | none => simp only [hd] at h; simp at h
    | some d =>
      simp only [hd] at h
      by_cases hc : thr ≤ d ∧ r0.url ∉ ex
      · rw [if_pos hc] at h
        rcases ih _ _ h r hr with hin | hout
        · rcases List.mem_append.mp hin with hin2 | hin2
          · exact Or.inl hin2
          · rw [List.mem_singleton.mp hin2]
            exact Or.inr hc.2
        · exact Or.inr hout
      · rw [if_neg hc] at h
        exact ih _ _ h r hr

/-- Every qualifying row of the iteration either already had its url in the
snapshot or ends with its url in the final `best_deals`. -/
theorem findDealsGo_qual_url (thr : ℚ) (ex : List String) :
    ∀ (rs : List MatchRow) (st st2 : List MatchRow × List MatchRow),
      findDealsGo thr ex st rs = some st2 →
      ∀ r ∈ rs, ∀ d : ℚ, r.discount_vs_avg_pct = some d → thr ≤ d →
        r.url ∈ ex ∨ r.url ∈ st2.2.map (fun q => q.url) := by
  intro rs
  induction rs with
  | nil =>
    intro st st2 h r hr
    simp at hr
  | cons r0 rest ih =>
    intro st st2 h r hr d hd hthr
    rw [findDealsGo] at h
    cases hd0 : r0.discount_vs_avg_pct with
    | none => simp only [hd0] at h; simp at h
    | some d0 =>
      simp only [hd0] at h
      rcases List.mem_cons.mp hr with rfl | hrest
      · by_cases hex : r.url ∈ ex
        · exact Or.inl hex
        · have hc : thr ≤ d0 ∧ r.url ∉ ex := by
            refine ⟨?_, hex⟩
            rw [hd0] at hd
            exact (Option.some.inj hd) ▸ hthr
          rw [if_pos hc] at h
          obtain ⟨extra, _, h2⟩ := findDealsGo_grow thr ex rest _ _ h
          refine Or.inr ?_
          rw [h2]
          simp
      · by_cases hc : thr ≤ d0 ∧ r0.url ∉ ex
        · rw [if_pos hc] at h
          exact ih _ _ h r hrest d hd hthr
        · rw [if_neg hc] at h
          exact ih _ _ h r hrest d hd hthr

/-- A qualifying row whose url is outside the snapshot is reported. -/
theorem findDealsGo_reports (thr : ℚ) (ex : List String) :
    ∀ (rs : List MatchRow) (st st2 : List MatchRow × List MatchRow),
      findDealsGo thr ex st rs = some st2 →
      ∀ r ∈ rs, ∀ d : ℚ, r.discount_vs_avg_pct = some d → thr ≤ d → r.url ∉ ex →
        r ∈ st2.1 := by
  intro rs
  induction rs with
  | nil =>
    intro st st2 h r hr
    simp at hr
  | cons r0 rest ih =>
    intro st st2 h r hr d hd hthr hex
    rw [findDealsGo] at h
    cases hd0 : r0.discount_vs_avg_pct with
    | none => simp only [hd0] at h; simp at h
    | some d0 =>
      simp only [hd0] at h
      rcases List.mem_cons.mp hr with rfl | hrest
      · have hc : thr ≤ d0 ∧ r.url ∉ ex := by
          refine ⟨?_, hex⟩
          rw [hd0] at hd
          exact (Option.some.inj hd) ▸ hthr
        rw [if_pos hc] at h
        obtain ⟨extra, h1, _⟩ := findDealsGo_grow thr ex rest _ _ h
        rw [h1]
        simp
      · by_cases hc : thr ≤ d0 ∧ r0.url ∉ ex
        · rw [if_pos hc] at h
          exact ih _ _ h r hrest d hd hthr hex
        · rw [if_neg hc] at h
          exact ih _ _ h r hrest d hd hthr hex

/-- The iteration completes (no `TypeError`) when every row's discount is a
number. -/
theorem findDealsGo_total (thr : ℚ) (ex : List String) :
    ∀ (rs : List MatchRow) (st : List MatchRow × List MatchRow),
      (∀ r ∈ rs, (r.discount_vs_avg_pct).isSome) →
      (findDealsGo thr ex st rs).isSome := by
  intro rs
  induction rs with
  | nil =>
    intro st hall
    rw [findDealsGo]
    rfl
  | cons r0 rest ih =>
    intro st hall
    rw [findDealsGo]
    cases hd0 : r0.discount_vs_avg_pct with
    | none =>
      have := hall r0 (List.mem_cons_self r0 rest)
      rw [hd0] at this
      simp at this
    | some d0 =>
      exact ih _ (fun r hr => hall r (List.mem_cons_of_mem r0 hr))

/-- Once a url is in `best_deals`, no later iteration of the watch loop
reports a row with that url. -/
theorem watchRun_seen_never_reported (thr : ℚ) (u : String) :
    ∀ (iters : List (List MatchRow)) (best : List MatchRow),
      u ∈ best.map (fun q => q.url) →
      ∀ itres ∈ (watchRun thr best iters).1, ∀ r ∈ itres, r.url ≠ u := by
  intro iters
  induction iters with
  | nil =>
    intro best hu itres hit
    rw [watchRun] at hit
    simp at hit
  | cons res rest ih =>
    intro best hu itres hit r hr
    rw [watchRun] at hit
    cases hf : findNewDeals thr best res with
    | none =>
      rw [hf] at hit
      rcases List.mem_cons.mp hit with rfl | htail
      · simp at hr
      · exact ih best hu itres htail r hr
    | some st2 =>
      rw [hf] at hit
      have hfd := hf
      rw [findNewDeals] at hfd
      rcases List.mem_cons.mp hit with rfl | htail
      · rcases findDealsGo_reported_new thr (best.map (fun q => q.url)) res _ _ hfd r hr with
          hin | hout
        · simp at hin
        · intro hru
          exact hout (hru ▸ hu)
      · obtain ⟨extra, _, h2⟩ := findDealsGo_grow thr (best.map (fun q => q.url)) res _ _ hfd
        have hu2 : u ∈ st2.2.map (fun q => q.url) := by
          rw [h2]
          show u ∈ (best ++ extra).map (fun q => q.url)
          rw [List.map_append]
          exact List.mem_append.mpr (Or.inl hu)
        exact ih st2.2 hu2 itres htail r hr

/-- C4: starting from a fresh watch instance, a qualifying deal present in the
first iteration's results is reported in the first iteration, and — its url
now being in the seen set — no later iteration reports any row with that url,
whatever the later iterations return. -/
theorem c4_watch_dedup (thr d : ℚ) (deal : MatchRow) (res : List MatchRow)
    (iters : List (List MatchRow))
    (hdeal : deal ∈ res) (hd : deal.discount_vs_avg_pct = some d) (hthr : thr ≤ d)
    (hall : ∀ r ∈ res, (r.discount_vs_avg_pct).isSome) :
    ∃ nd b2,
      findNewDeals thr [] res = some (nd, b2) ∧
      (watchRun thr [] (res :: iters)).1 = nd :: (watchRun thr b2 iters).1 ∧
      deal ∈ nd ∧
      deal.url ∈ b2.map (fun q => q.url) ∧
      ∀ itres ∈ (watchRun thr b2 iters).1, ∀ r ∈ itres, r.url ≠ deal.url := by
  have hsome : (findNewDeals thr [] res).isSome := by
    rw [findNewDeals]
    exact findDealsGo_total thr _ res _ hall
  obtain ⟨st2, hf⟩ := Option.isSome_iff_exists.mp hsome
  obtain ⟨nd, b2⟩ := st2
  have hfd := hf
  rw [findNewDeals] at hfd
  have hqual := findDealsGo_qual_url thr (([] : List MatchRow).map (fun q => q.url)) res _ _ hfd
    deal hdeal d hd hthr
  have hmem : deal.url ∈ b2.map (fun q => q.url) := by
    rcases hqual with habs | hgood
    · simp at habs
    · exact hgood
  refine ⟨nd, b2, hf, ?_, ?_, hmem, ?_⟩
  · rw [watchRun, hf]
  · have := findDealsGo_reports thr (([] : List MatchRow).map (fun q => q.url)) res _ _ hfd
      deal hdeal d hd hthr (by simp)
    simpa using this
  · intro itres hit r hr
    exact watchRun_seen_never_reported thr deal.url iters b2 hmem itres hit r hr

/-- C4 witness: the dedup theorem applied to a concrete deal returned by both
of two iterations. -/
theorem c4_watch_dedup_witness :
    ∃ nd b2,
      findNewDeals 30 [] [exDeal] = some (nd, b2) ∧
      (watchRun 30 [] [[exDeal], [exDeal]]).1 = nd :: (watchRun 30 b2 [[exDeal]]).1 ∧
      exDeal ∈ nd ∧
      exDeal.url ∈ b2.map (fun q => q.url) ∧
      ∀ itres ∈ (watchRun 30 b2 [[exDeal]]).1, ∀ r ∈ itres, r.url ≠ exDeal.url := by
  exact c4_watch_dedup 30 50 exDeal [exDeal] [[exDeal]] (by simp) rfl (by norm_num)
    (by
      intro r hr
      simp only [List.mem_singleton] at hr
      subst hr
      rfl)

/-! ### Token-set similarity facts -/

/-- Deduplication does not change the token set. -/
theorem tokens_toFinset (s : String) : (tokens s).toFinset = tokenFinset s := by
  ext t
  simp [tokens, tokenFinset, List.mem_dedup]

/-- The token list is duplicate-free. -/
theorem tokens_nodup (s : String) : (tokens s).Nodup :=
  List.nodup_dedup _

/-- Membership in the token set is membership in the token list. -/
theorem mem_tokenFinset (x s : String) : x ∈ tokenFinset s ↔ x ∈ tokens s := by
  rw [← tokens_toFinset]
  exact List.mem_toFinset

/-- The token list's length is the token set's size. -/
theorem tokens_length_card (s : String) : (tokens s).length = (tokenFinset s).card := by
  rw [← tokens_toFinset]
  exact (List.toFinset_card_of_nodup (tokens_nodup s)).symm

/-- The overlap count in `tokenSetSim` is the size of the token-set
intersection. -/
theorem tokens_inter_card (a b : String) :
    ((tokens a).filter (fun t => (tokens b).contains t)).length =
      ((tokenFinset a) ∩ (tokenFinset b)).card := by
  have hnd : ((tokens a).filter (fun t => (tokens b).contains t)).Nodup :=
    (tokens_nodup a).filter _
  rw [← List.toFinset_card_of_nodup hnd]
  congr 1
  ext x
  simp only [List.mem_toFinset, List.mem_filter, Finset.mem_inter, mem_tokenFinset]
  constructor
  · rintro ⟨h1, h2⟩
    exact ⟨h1, List.elem_iff.mp h2⟩
  · rintro ⟨h1, h2⟩
    exact ⟨h1, List.elem_iff.mpr h2⟩

/-- The boolean mutual-containment test of `tokenSetSim` decides token-set
equality. -/
theorem tokens_mutual_iff (a b : String) :
    (((tokens a).all (fun t => (tokens b).contains t) &&
      (tokens b).all (fun t => (tokens a).contains t)) = true) ↔
      tokenFinset a = tokenFinset b := by
  rw [Bool.and_eq_true, List.all_eq_true, List.all_eq_true]
  constructor
  · rintro ⟨h1, h2⟩
    apply Finset.Subset.antisymm
    · intro x hx
      rw [mem_tokenFinset] at hx ⊢
      exact List.elem_iff.mp (h1 x hx)
    · intro x hx
      rw [mem_tokenFinset] at hx ⊢
      exact List.elem_iff.mp (h2 x hx)
  · intro h
    constructor
    · intro x hx
      refine List.elem_iff.mpr ?_
      rw [← mem_tokenFinset, ← h, mem_tokenFinset]
      exact hx
    · intro x hx
      refine List.elem_iff.mpr ?_
      rw [← mem_tokenFinset, h, mem_tokenFinset]
      exact hx

/-- The modelled similarity equals 100 exactly on equal token sets, and never
exceeds 100. -/
theorem tokenSetSim_spec (a b : String) :
    (tokenSetSim a b = 100 ↔ tokenFinset a = tokenFinset b) ∧ tokenSetSim a b ≤ 100 := by
  by_cases hc : (((tokens a).all (fun t => (tokens b).contains t) &&
      (tokens b).all (fun t => (tokens a).contains t)) = true)
  · have hval : tokenSetSim a b = 100 := by
      simp only [tokenSetSim]
      rw [if_pos hc]
    have hsets := (tokens_mutual_iff a b).mp hc
    exact ⟨by simp [hval, hsets], le_of_eq hval⟩
  · have hsets : tokenFinset a ≠ tokenFinset b := fun h => hc ((tokens_mutual_iff a b).mpr h)
    have hval : tokenSetSim a b =
        (((200 * ((tokens a).filter (fun t => (tokens b).contains t)).length) /
          ((tokens a).length + (tokens b).length) : ℕ) : ℤ) := by
      simp only [tokenSetSim]
      rw [if_neg hc]
    have hia : (tokenFinset a ∩ tokenFinset b).card ≤ (tokenFinset a).card :=
      Finset.card_le_card Finset.inter_subset_left
    have hib : (tokenFinset a ∩ tokenFinset b).card ≤ (tokenFinset b).card :=
      Finset.card_le_card Finset.inter_subset_right
    have hstrict : 2 * (tokenFinset a ∩ tokenFinset b).card <
        (tokenFinset a).card + (tokenFinset b).card := by
      by_contra hge
      push_neg at hge
      have h1 : (tokenFinset a).card ≤ (tokenFinset a ∩ tokenFinset b).card := by omega
      have h2 : (tokenFinset b).card ≤ (tokenFinset a ∩ tokenFinset b).card := by omega
      have ha : tokenFinset a ∩ tokenFinset b = tokenFinset a :=
        Finset.eq_of_subset_of_card_le Finset.inter_subset_left h1
      have hb : tokenFinset a ∩ tokenFinset b = tokenFinset b :=
        Finset.eq_of_subset_of_card_le Finset.inter_subset_right h2
      exact hsets (ha ▸ hb)
    have hpos : 0 < (tokenFinset a).card + (tokenFinset b).card := by
      by_contra hz
      push_neg at hz
      have hza : (tokenFinset a).card = 0 := by omega
      have hzb : (tokenFinset b).card = 0 := by omega
      exact hsets (by rw [Finset.card_eq_zero.mp hza, Finset.card_eq_zero.mp hzb])
    have hdiv : (200 * ((tokens a).filter (fun t => (tokens b).contains t)).length) /
        ((tokens a).length + (tokens b).length) < 100 := by
      rw [tokens_inter_card, tokens_length_card, tokens_length_card]
      apply Nat.div_lt_of_lt_mul
      omega
    have hlt : tokenSetSim a b < 100 := by
      rw [hval]
      exact_mod_cast hdiv
    exact ⟨⟨fun h => absurd (h ▸ hlt) (lt_irrefl _), fun h => absurd h hsets⟩,
      le_of_lt hlt⟩

/-- Any string's similarity to itself is 100. -/
theorem tokenSetSim_self (s : String) : tokenSetSim s s = 100 :=
  (tokenSetSim_spec s s).1.mpr rfl

/-! ### C3: clustering at threshold 100 -/

/-- Every member of every bin after an append is either an old member of a
bin with the same key, or the appended listing under the appended key. -/
theorem appendBin_mem (bins : Bins) (k : String) (l : Listing) :
    ∀ kb ∈ appendBin bins k l, ∀ x ∈ kb.2,
      (∃ kb0 ∈ bins, kb0.1 = kb.1 ∧ x ∈ kb0.2) ∨ (kb.1 = k ∧ x = l) := by
  induction bins with
  | nil =>
    intro kb hkb x hx
    rw [appendBin] at hkb
    rw [List.mem_singleton.mp hkb] at hx ⊢
    exact Or.inr ⟨rfl, List.mem_singleton.mp hx⟩
  | cons p rest ih =>
    obtain ⟨k0, v⟩ := p
    intro kb hkb x hx
    rw [appendBin] at hkb
    by_cases h0 : k0 = k
    · rw [if_pos h0] at hkb
      rcases List.mem_cons.mp hkb with rfl | htail
      · rcases List.mem_append.mp hx with hv | hl
        · exact Or.inl ⟨(k0, v), List.mem_cons_self _ _, rfl, hv⟩
        · exact Or.inr ⟨h0, List.mem_singleton.mp hl⟩
      · exact Or.inl ⟨kb, List.mem_cons_of_mem _ htail, rfl, hx⟩
    · rw [if_neg h0] at hkb
      rcases List.mem_cons.mp hkb with rfl | htail
      · exact Or.inl ⟨(k0, v), List.mem_cons_self _ _, rfl, hx⟩
      · rcases ih kb htail x hx with ⟨kb0, hkb0, he, hx0⟩ | hr
        · exact Or.inl ⟨kb0, List.mem_cons_of_mem _ hkb0, he, hx0⟩
        · exact Or.inr hr

/-- Invariant of the greedy clustering loop: any per-listing property that
holds of a listing and its exemplar whenever the exemplar scores at least the
threshold against the listing's normalized title — and holds of every listing
and its own normalized title — holds of every bin member and its bin key. -/
theorem clusters_invariant (sim : String → String → ℤ) (t : ℤ)
    (Q : String → Listing → Prop)
    (hsim : ∀ k l, t ≤ sim (normTitle l.title) k → Q k l)
    (hself : ∀ l : Listing, Q (normTitle l.title) l) :
    ∀ (ls : List Listing) (st : List String × Bins),
      (∀ kb ∈ st.2, ∀ x ∈ kb.2, Q kb.1 x) →
      ∀ kb ∈ (ls.foldl (clusterStep sim t) st).2, ∀ x ∈ kb.2, Q kb.1 x := by
  intro ls
  induction ls with
  | nil =>
    intro st hst
    simpa using hst
  | cons l rest ih =>
    intro st hst
    rw [List.foldl_cons]
    apply ih
    intro kb hkb x hx
    cases hf : st.1.find? (fun k => decide (t ≤ sim (normTitle l.title) k)) with
    | none =>
      have hstep : (clusterStep sim t st l).2 = appendBin st.2 (normTitle l.title) l := by
        simp only [clusterStep, hf]
      rw [hstep] at hkb
      rcases appendBin_mem st.2 _ l kb hkb x hx with ⟨kb0, h0, he, hx0⟩ | ⟨hk, hxl⟩
      · exact he ▸ hst kb0 h0 x hx0
      · rw [hk, hxl]
        exact hself l
    | some k =>
      by_cases hke : k = ""
      · have hstep : (clusterStep sim t st l).2 = appendBin st.2 (normTitle l.title) l := by
          simp only [clusterStep, hf]
          rw [if_pos hke]
        rw [hstep] at hkb
        rcases appendBin_mem st.2 _ l kb hkb x hx with ⟨kb0, h0, he, hx0⟩ | ⟨hk, hxl⟩
        · exact he ▸ hst kb0 h0 x hx0
        · rw [hk, hxl]
          exact hself l
      · have hstep : (clusterStep sim t st l).2 = appendBin st.2 k l := by
          simp only [clusterStep, hf]
          rw [if_neg hke]
        rw [hstep] at hkb
        rcases appendBin_mem st.2 k l kb hkb x hx with ⟨kb0, h0, he, hx0⟩ | ⟨hk, hxl⟩
        · exact he ▸ hst kb0 h0 x hx0
        · rw [hk, hxl]
          have hp := List.find?_some hf
          exact hsim k l (of_decide_eq_true hp)

/-- C3 counterexample.  The claim says that at threshold 100 every cluster
holds only listings with *identical* normalized titles.  The similarity is a
function of the token *sets* (order- and duplicate-insensitive), so the
distinct normalized titles "b a" and "a b" score 100 against each other and
the two listings land in one cluster. -/
theorem c3_order_insensitive_counterexample :
    clusters [ordA, ordB] 100 = [(("b a" : String), [ordA, ordB])] ∧
    normTitle ordA.title ≠ normTitle ordB.title := by
  constructor <;> decide

/-- C3 as amended: at threshold 100 every cluster member's normalized title
has exactly the exemplar's token set — the same words, in any order and
multiplicity, but not necessarily the same title string. -/
theorem c3_threshold_100_equal_token_sets (ls : List Listing) (k : String)
    (mem : List Listing) (l : Listing)
    (hk : (k, mem) ∈ clusters ls 100) (hl : l ∈ mem) :
    tokenFinset (normTitle l.title) = tokenFinset k := by
  have h := clusters_invariant tokenSetSim 100
    (fun key x => tokenFinset (normTitle x.title) = tokenFinset key)
    (fun key x hx => by
      have hle := (tokenSetSim_spec (normTitle x.title) key).2
      have h100 : tokenSetSim (normTitle x.title) key = 100 := le_antisymm hle hx
      exact (tokenSetSim_spec (normTitle x.title) key).1.mp h100)
    (fun x => rfl)
    ls ([], []) (by simp)
  exact h (k, mem) hk l hl

/-- C3 witness: the amended theorem applied to the "b a"/"a b" cluster. -/
theorem c3_threshold_100_witness :
    tokenFinset (normTitle ordB.title) = tokenFinset ("b a") := by
  exact c3_threshold_100_equal_token_sets [ordA, ordB] ("b a") [ordA, ordB] ordB
    (by decide) (by simp)

/-! ### C10: threshold monotonicity -/

/-- Running the clustering loop from a state whose first exemplar is the
non-empty `nt0` and whose first bin is `nt0`'s: the first bin collects exactly
the processed listings that either score at least the threshold against `nt0`
or whose normalized title *is* `nt0`, in order — independent of every other
exemplar, because `nt0` sits first in the scan order. -/
theorem firstBin_go (t : ℤ) (nt0 : String) (h0 : nt0 ≠ "") :
    ∀ (tail : List Listing) (ex : List String) (bins : Bins) (v : List Listing),
      ∃ ex2 bins2,
        tail.foldl (clusterStep tokenSetSim t) (nt0 :: ex, (nt0, v) :: bins) =
          (nt0 :: ex2,
           (nt0, v ++ tail.filter (fun l =>
              decide (t ≤ tokenSetSim (normTitle l.title) nt0) ||
              (normTitle l.title == nt0))) :: bins2) := by
  intro tail
  induction tail with
  | nil =>
    intro ex bins v
    exact ⟨ex, bins, by simp⟩
  | cons l rest ih =>
    intro ex bins v
    rw [List.foldl_cons]
    by_cases hhead : decide (t ≤ tokenSetSim (normTitle l.title) nt0) = true
    · have hf : (nt0 :: ex).find?
          (fun k => decide (t ≤ tokenSetSim (normTitle l.title) k)) = some nt0 :=
        List.find?_cons_of_pos ex hhead
      have hstep : clusterStep tokenSetSim t (nt0 :: ex, (nt0, v) :: bins) l =
          (nt0 :: ex, (nt0, v ++ [l]) :: bins) := by
        simp only [clusterStep, hf]
        rw [if_neg h0, appendBin, if_pos rfl]
      rw [hstep]
      obtain ⟨ex2, bins2, hrec⟩ := ih ex bins (v ++ [l])
      refine ⟨ex2, bins2, ?_⟩
      rw [hrec]
      have hcond : (decide (t ≤ tokenSetSim (normTitle l.title) nt0) ||
          (normTitle l.title == nt0)) = true := by
        rw [hhead]
        rfl
      have hfeq : List.filter (fun x => decide (t ≤ tokenSetSim (normTitle x.title) nt0) ||
          (normTitle x.title == nt0)) (l :: rest) =
          l :: List.filter (fun x => decide (t ≤ tokenSetSim (normTitle x.title) nt0) ||
          (normTitle x.title == nt0)) rest := List.filter_cons_of_pos hcond
      rw [hfeq]
      simp
    · have hf0 : (nt0 :: ex).find?
          (fun k => decide (t ≤ tokenSetSim (normTitle l.title) k)) =
          ex.find? (fun k => decide (t ≤ tokenSetSim (normTitle l.title) k)) :=
        List.find?_cons_of_neg ex hhead
      have hcondF : normTitle l.title ≠ nt0 →
          ¬ ((decide (t ≤ tokenSetSim (normTitle l.title) nt0) ||
            (normTitle l.title == nt0)) = true) := by
        intro hne hcontra
        rw [Bool.or_eq_true] at hcontra
        rcases hcontra with hs | hb
        · exact hhead hs
        · exact hne (beq_iff_eq.mp hb)
      cases hfex : ex.find? (fun k => decide (t ≤ tokenSetSim (normTitle l.title) k)) with
      | some k =>
        have hpk := List.find?_some hfex
        have htle : t ≤ 100 :=
          le_trans (of_decide_eq_true hpk) (tokenSetSim_spec (normTitle l.title) k).2
        have hne : normTitle l.title ≠ nt0 := by
          intro he
          apply hhead
          rw [he, tokenSetSim_self]
          exact decide_eq_true htle
        have hkne : k ≠ nt0 := by
          intro he
          apply hhead
          rw [← he]
          exact hpk
        by_cases hke : k = ""
        · have hstep : clusterStep tokenSetSim t (nt0 :: ex, (nt0, v) :: bins) l =
              (nt0 :: (ex ++ [normTitle l.title]),
               (nt0, v) :: appendBin bins (normTitle l.title) l) := by
            simp only [clusterStep, hf0, hfex]
            rw [if_pos hke, appendBin, if_neg (fun h => hne h.symm)]
            rfl
          rw [hstep]
          obtain ⟨ex2, bins2, hrec⟩ :=
            ih (ex ++ [normTitle l.title]) (appendBin bins (normTitle l.title) l) v
          refine ⟨ex2, bins2, ?_⟩
          have hfeq : List.filter (fun x => decide (t ≤ tokenSetSim (normTitle x.title) nt0) ||
              (normTitle x.title == nt0)) (l :: rest) =
              List.filter (fun x => decide (t ≤ tokenSetSim (normTitle x.title) nt0) ||
              (normTitle x.title == nt0)) rest := List.filter_cons_of_neg (hcondF hne)
          rw [hrec, hfeq]
        · have hstep : clusterStep tokenSetSim t (nt0 :: ex, (nt0, v) :: bins) l =
              (nt0 :: ex, (nt0, v) :: appendBin bins k l) := by
            simp only [clusterStep, hf0, hfex]
            rw [if_neg hke, appendBin, if_neg (fun h => hkne h.symm)]
          rw [hstep]
          obtain ⟨ex2, bins2, hrec⟩ := ih ex (appendBin bins k l) v
          refine ⟨ex2, bins2, ?_⟩
          have hfeq : List.filter (fun x => decide (t ≤ tokenSetSim (normTitle x.title) nt0) ||
              (normTitle x.title == nt0)) (l :: rest) =
              List.filter (fun x => decide (t ≤ tokenSetSim (normTitle x.title) nt0) ||
              (normTitle x.title == nt0)) rest := List.filter_cons_of_neg (hcondF hne)
          rw [hrec, hfeq]
      | none =>
        by_cases hne : normTitle l.title = nt0
        · have hstep : clusterStep tokenSetSim t (nt0 :: ex, (nt0, v) :: bins) l =
              (nt0 :: (ex ++ [normTitle l.title]), (nt0, v ++ [l]) :: bins) := by
            simp only [clusterStep, hf0, hfex]
            rw [appendBin, if_pos hne.symm]
            rfl
          rw [hstep]
          obtain ⟨ex2, bins2, hrec⟩ := ih (ex ++ [normTitle l.title]) bins (v ++ [l])
          refine ⟨ex2, bins2, ?_⟩
          rw [hrec]
          have hcond : (decide (t ≤ tokenSetSim (normTitle l.title) nt0) ||
              (normTitle l.title == nt0)) = true := by
            rw [hne]
            simp
          have hfeq : List.filter (fun x => decide (t ≤ tokenSetSim (normTitle x.title) nt0) ||
              (normTitle x.title == nt0)) (l :: rest) =
              l :: List.filter (fun x => decide (t ≤ tokenSetSim (normTitle x.title) nt0) ||
              (normTitle x.title == nt0)) rest := List.filter_cons_of_pos hcond
          rw [hfeq]
          simp
        · have hstep : clusterStep tokenSetSim t (nt0 :: ex, (nt0, v) :: bins) l =
              (nt0 :: (ex ++ [normTitle l.title]),
               (nt0, v) :: appendBin bins (normTitle l.title) l) := by
            simp only [clusterStep, hf0, hfex]
            rw [appendBin, if_neg (fun h => hne h.symm)]
            rfl
          rw [hstep]
          obtain ⟨ex2, bins2, hrec⟩ :=
            ih (ex ++ [normTitle l.title]) (appendBin bins (normTitle l.title) l) v
          refine ⟨ex2, bins2, ?_⟩
          have hfeq : List.filter (fun x => decide (t ≤ tokenSetSim (normTitle x.title) nt0) ||
              (normTitle x.title == nt0)) (l :: rest) =
              List.filter (fun x => decide (t ≤ tokenSetSim (normTitle x.title) nt0) ||
              (normTitle x.title == nt0)) rest := List.filter_cons_of_neg (hcondF hne)
          rw [hrec, hfeq]

/-- The first listing's cluster, in full: the first listing followed by
exactly those later listings scoring at least the threshold against its
normalized title (or sharing that normalized title). -/
theorem firstBin_characterization (l0 : Listing) (tail : List Listing) (t : ℤ)
    (h0 : normTitle l0.title ≠ "") :
    binOf (l0 :: tail) t (normTitle l0.title) =
      l0 :: tail.filter (fun l =>
        decide (t ≤ tokenSetSim (normTitle l.title) (normTitle l0.title)) ||
        (normTitle l.title == normTitle l0.title)) := by
  have hinit : clusterStep tokenSetSim t ([], []) l0 =
      ([normTitle l0.title], [(normTitle l0.title, [l0])]) := by
    simp only [clusterStep]
    rfl
  obtain ⟨ex2, bins2, hrec⟩ := firstBin_go t (normTitle l0.title) h0 tail [] [] [l0]
  rw [binOf, clusters, clustersWith, List.foldl_cons, hinit, hrec]
  simp

/-- C10 as amended, the part that does hold: for the *first* exemplar's
cluster, raising the threshold never increases the cluster's size (its member
list only loses elements). -/
theorem c10_first_cluster_antitone (l0 : Listing) (tail : List Listing)
    (t1 t2 : ℤ) (h0 : normTitle l0.title ≠ "") (h12 : t1 ≤ t2) :
    (binOf (l0 :: tail) t2 (normTitle l0.title)).length ≤
      (binOf (l0 :: tail) t1 (normTitle l0.title)).length := by
  rw [firstBin_characterization l0 tail t1 h0, firstBin_characterization l0 tail t2 h0]
  simp only [List.length_cons, Nat.succ_le_succ_iff]
  have hsub : List.Sublist
      (tail.filter (fun l =>
        decide (t2 ≤ tokenSetSim (normTitle l.title) (normTitle l0.title)) ||
        (normTitle l.title == normTitle l0.title)))
      (tail.filter (fun l =>
        decide (t1 ≤ tokenSetSim (normTitle l.title) (normTitle l0.title)) ||
        (normTitle l.title == normTitle l0.title))) := by
    apply List.monotone_filter_right
    intro l hl
    rw [Bool.or_eq_true] at hl ⊢
    rcases hl with hs | hb
    · exact Or.inl (decide_eq_true (le_trans h12 (of_decide_eq_true hs)))
    · exact Or.inr hb
  exact hsub.length_le

/-- C10 counterexample.  At thresholds t1 = 34 < t2 = 50, the t2 run's
cluster keyed "a b c d" holds three listings (cy, cz, cw), while at t1 the
cluster containing cy — the listing whose normalized title is that exemplar —
is the first cluster, with only two listings: raising the threshold made a
cluster larger.  (Greedy first-fit: at t1, cy is absorbed into cx's cluster
and cz, cw match nothing; at t2, cy seeds its own exemplar which then absorbs
cz and cw.) -/
theorem c10_threshold_counterexample :
    clusters [cx, cy, cz, cw] 50 =
      [(("a c e f g" : String), [cx]), (("a b c d" : String), [cy, cz, cw])] ∧
    clusters [cx, cy, cz, cw] 34 =
      [(("a c e f g" : String), [cx, cy]), (("a b p q" : String), [cz]),
       (("c d r s" : String), [cw])] ∧
    normTitle cy.title = "a b c d" ∧
    (34 : ℤ) < 50 ∧ (2 : ℕ) < 3 ∧
    [cy, cz, cw].length = 3 ∧ [cx, cy].length = 2 := by
  refine ⟨by decide, by decide, by decide, by decide, by decide, by decide, by decide⟩

/-- C10 witness: the amended (first-cluster) monotonicity theorem applied to
the concrete four-listing run at thresholds 34 ≤ 50. -/
theorem c10_first_cluster_witness :
    (binOf [cx, cy, cz, cw] 50 (normTitle cx.title)).length ≤
      (binOf [cx, cy, cz, cw] 34 (normTitle cx.title)).length := by
  exact c10_first_cluster_antitone cx [cy, cz, cw] 34 50 (by decide) (by decide)

end ArbFinder
